import Mathlib

/-!
Verification of the PIConGPU PICMI simulation resolution engine
(lib/python/picongpu/picmi/simulation.py).

The Python source is shallowly embedded: pure computations become Lean
functions, the mutation of the simulation object during electron
resolution becomes explicit state passing on a state record, and code
that raises exceptions returns an Except value whose error constructor
carries exactly the data named in the exception message.

Numeric conventions: the Yee reconciler works on real numbers (the code
computes a square root); species classification, density scales and
particle counts are modelled on rationals, which makes every predicate
decidable.  Python object identity (species are referenced by pointer,
dictionaries key on identity) is modelled by an id field.
-/

set_option maxHeartbeats 1000000

namespace PicongpuPicmi

-- Modelled from the spec: physical constant values live in
-- picongpu/picmi/constants.py, which is not part of the analysed sources.
-- The spec only calls c "the speed of light"; its exact value is irrelevant
-- to every claim (only positivity is used).
namespace constants

/-- Speed of light in m/s. -/
def c : ℝ := 299792458

/-- Modelled from the spec: electron rest mass (kg), named m_e in
constants.py. -/
def m_e : ℚ := 91093837015 / 10 ^ 41

/-- Modelled from the spec: elementary charge (C), named q_e in
constants.py. -/
def q_e : ℚ := 1602176634 / 10 ^ 28

end constants

/-- A Cartesian 3-D grid as consumed by __yee_compute_cfl_or_delta_t:
per-axis lower bound, upper bound and cell count. -/
structure Cartesian3DGrid where
  lower_bound : Fin 3 → ℝ
  upper_bound : Fin 3 → ℝ
  number_of_cells : Fin 3 → ℕ

/-- Per-axis grid spacing, (upper_bound - lower_bound) / number_of_cells,
exactly as computed for delta_x, delta_y, delta_z in the source. -/
noncomputable def Cartesian3DGrid.delta (g : Cartesian3DGrid) (i : Fin 3) : ℝ :=
  (g.upper_bound i - g.lower_bound i) / (g.number_of_cells i : ℝ)

/-- The factor relating time step and CFL parameter,
constants.c * sqrt(1/delta_x^2 + 1/delta_y^2 + 1/delta_z^2).
The source spells this expression out in all three branches of
__yee_compute_cfl_or_delta_t. -/
noncomputable def yeeS (g : Cartesian3DGrid) : ℝ :=
  constants.c * Real.sqrt (1 / g.delta 0 ^ 2 + 1 / g.delta 1 ^ 2 + 1 / g.delta 2 ^ 2)

/-- Error raised by __yee_compute_cfl_or_delta_t.  The ValueError message
names the set time step (delta_t) and the time step derived from the CFL
parameter (expected from CFL), i.e. both conflicting values. -/
inductive YeeError where
  | mismatch (delta_t : ℝ) (delta_t_from_cfl : ℝ)

open Classical in
/-- Embedding of Simulation.__yee_compute_cfl_or_delta_t.  Input: the
simulation's time_step_size, the solver's cfl and the solver's grid;
output: the new (time_step_size, cfl) pair or the raised error.  In the
source the two fields are mutated in place. -/
noncomputable def yee_compute_cfl_or_delta_t (time_step_size : Option ℝ) (cfl : Option ℝ)
    (g : Cartesian3DGrid) : Except YeeError (Option ℝ × Option ℝ) :=
  match time_step_size, cfl with
  | some dt, some c =>
      -- both cfl & delta_t given -> check their compatibility
      let delta_t_from_cfl := c / yeeS g
      if delta_t_from_cfl ≠ dt then
        .error (.mismatch dt delta_t_from_cfl)
      else
        .ok (some dt, some c)
  | some dt, none =>
      -- calculate cfl
      .ok (some dt, some (dt * yeeS g))
  | none, some c =>
      -- calculate delta_t
      .ok (some (c / yeeS g), some c)
  | none, none =>
      -- if neither delta_t nor cfl are given simply silently pass
      .ok (none, none)

/-- A macroparticle placement layout.  Only pseudo-random layouts reach
the grouping code (the source asserts isinstance of
PICMI_PseudoRandomLayout there), so a layout is modelled by its sampling
count.  Modelled from the spec: grouping keys compare by structural
(value) equality; the layout class itself lives outside the analysed
file. -/
structure Layout where
  n_macroparticles_per_cell : ℕ
deriving DecidableEq

/-- An initial density distribution (profile).  Its internals are opaque
to the resolution engine; only value equality (dictionary grouping) and
the translation to the PyPIConGPU form are used.  Modelled from the spec:
profiles compare by structural (value) equality. -/
structure Profile where
  descriptor : ℕ
deriving DecidableEq

/-- Translated (PyPIConGPU output form) of a profile. -/
structure PypicProfile where
  descriptor : ℕ
deriving DecidableEq

/-- Modelled from the spec: profile translation get_as_pypicongpu; the
engine treats it as an opaque per-profile normalization. -/
def Profile.get_as_pypicongpu (p : Profile) : PypicProfile :=
  PypicProfile.mk p.descriptor

/-- Observable attributes of a Python reference to a PICMI species as the
resolution engine uses them: the object identity (id) and the name
attribute read when formatting error messages. -/
structure DonorRef where
  id : ℕ
  name : String
deriving DecidableEq

/-- A PICMI (input form) species with the attributes the resolution engine
reads or writes.  The id field models Python object identity.
has_ionizers is modelled from the spec (ionizer-presence method of the
Input Model species; species.py is outside the analysed file). -/
structure PicmiSpecies where
  id : ℕ
  name : String
  particle_type : Option String
  mass : Option ℚ
  charge : Option ℚ
  initial_distribution : Option Profile
  density_scale : Option ℚ
  picongpu_ionization_electrons : Option DonorRef
  has_ionizers : Bool
deriving DecidableEq

/-- Python math.isclose with its default tolerances rel_tol = 1e-9 and
abs_tol = 0.0, on exact rationals. -/
def isclose (a b : ℚ) : Bool :=
  |a - b| ≤ max ((1 / 10 ^ 9) * max |a| |b|) 0

/-- The electron classification of __get_electron_species: particle_type
tag equals "electron", or mass is close to the electron rest mass and
charge close to the negative elementary charge. -/
def isElectron (s : PicmiSpecies) : Bool :=
  if s.particle_type = some ("electron") then
    true
  else
    match s.mass, s.charge with
    | some m, some q => isclose m constants.m_e && isclose q (-constants.q_e)
    | _, _ => false

/-- The unambiguous-name loop of __get_electron_species: starting from the
base name, append the escape character until the name no longer occurs
among the existing species names. -/
def escapeName (all_species_names : List String) (base : String) : String :=
  if h : base ∈ all_species_names then
    escapeName all_species_names (base ++ ("_"))
  else
    base
termination_by (all_species_names.filter (fun s => base.length ≤ s.length)).length
decreasing_by
  have h1 : ("_" : String).length = 1 := rfl
  have hlen : (base ++ ("_")).length = base.length + 1 := by
    rw [String.length_append, h1]
  have key : ∀ (l : List String) (b : String), b ∈ l →
      (l.filter (fun s => decide (b.length + 1 ≤ s.length))).length
        < (l.filter (fun s => decide (b.length ≤ s.length))).length := by
    intro l
    induction l with
    | nil => intro b hb; cases hb
    | cons x xs ih =>
      intro b hb
      have hmono : (xs.filter (fun s => decide (b.length + 1 ≤ s.length))).length
          ≤ (xs.filter (fun s => decide (b.length ≤ s.length))).length :=
        List.Sublist.length_le (List.monotone_filter_right xs (fun a ha => by
          simp only [decide_eq_true_eq] at ha ⊢
          omega))
      rcases List.mem_cons.mp hb with hbx | hbxs
      · subst hbx
        rw [List.filter_cons, List.filter_cons]
        rw [if_neg (show ¬(decide (b.length + 1 ≤ b.length) = true) by simp)]
        rw [if_pos (show decide (b.length ≤ b.length) = true by simp)]
        simp only [List.length_cons]
        exact Nat.lt_succ_of_le hmono
      · have hstrict := ih b hbxs
        rw [List.filter_cons, List.filter_cons]
        by_cases hq : b.length ≤ x.length
        · by_cases hp : b.length + 1 ≤ x.length
          · rw [if_pos (show decide (b.length + 1 ≤ x.length) = true by simpa using hp)]
            rw [if_pos (show decide (b.length ≤ x.length) = true by simpa using hq)]
            simp only [List.length_cons]
            omega
          · rw [if_neg (show ¬(decide (b.length + 1 ≤ x.length) = true) by simpa using hp)]
            rw [if_pos (show decide (b.length ≤ x.length) = true by simpa using hq)]
            simp only [List.length_cons]
            omega
        · have hp : ¬b.length + 1 ≤ x.length := by omega
          rw [if_neg (show ¬(decide (b.length + 1 ≤ x.length) = true) by simpa using hp)]
          rw [if_neg (show ¬(decide (b.length ≤ x.length) = true) by simpa using hq)]
          exact hstrict
  simpa only [hlen] using key all_species_names base h

/-- The mutable state of a Simulation as touched by electron resolution:
the positionally aligned species and layout lists, the private
__electron_species cache, a counter modelling allocation of fresh Python
objects, and the informational notices logged so far. -/
@[ext]
structure SimState where
  species : List PicmiSpecies
  layouts : List (Option Layout)
  electron_cache : Option PicmiSpecies
  next_id : ℕ
  logs : List String
deriving DecidableEq

/-- Error raised by __get_electron_species; the ValueError message joins
the listed candidate names with a comma. -/
inductive ElectronError where
  | ambiguous (candidate_names : List String)
deriving DecidableEq

/-- Embedding of Simulation.__get_electron_species: return the cached
choice if present; otherwise classify all species, use a unique
electron-like species directly, synthesize (and register with a none
layout) a new electron species when there is none, and raise the
ambiguity error listing all candidates when there are two or more. -/
def getElectronSpecies (st : SimState) : Except ElectronError (PicmiSpecies × SimState) :=
  match st.electron_cache with
  | some e => .ok (e, st)
  | none =>
    match st.species.filter isElectron with
    | [e] =>
      -- exactly one electron species: use it
      .ok (e, { st with electron_cache := some e })
    | [] =>
      -- no electron species: add one
      let all_species_names := st.species.map PicmiSpecies.name
      let electrons_name := escapeName all_species_names ("e")
      let electrons : PicmiSpecies :=
        { id := st.next_id, name := electrons_name, particle_type := some ("electron"),
          mass := none, charge := none, initial_distribution := none, density_scale := none,
          picongpu_ionization_electrons := none, has_ionizers := false }
      .ok (electrons,
        { st with
          species := st.species ++ [electrons],
          layouts := st.layouts ++ [none],
          electron_cache := some electrons,
          next_id := st.next_id + 1,
          logs := st.logs ++
            [("no electron species for ionization available, creating electrons with name: ")
              ++ electrons_name] })
    | e1 :: e2 :: rest =>
      -- ambiguous choice -> raise
      .error (.ambiguous ((e1 :: e2 :: rest).map PicmiSpecies.name))

/-- The name the synthesis branch of __get_electron_species picks. -/
def synthName (st : SimState) : String :=
  escapeName (st.species.map PicmiSpecies.name) ("e")

/-- The species the synthesis branch of __get_electron_species creates. -/
def synthElectron (st : SimState) : PicmiSpecies :=
  { id := st.next_id, name := synthName st, particle_type := some ("electron"),
    mass := none, charge := none, initial_distribution := none, density_scale := none,
    picongpu_ionization_electrons := none, has_ionizers := false }

/-- The state after the synthesis branch of __get_electron_species: the
new species is appended to the species sequence, a none layout is
appended to the layout sequence, the cache is filled and the
informational notice is logged. -/
def synthState (st : SimState) : SimState :=
  { st with
    species := st.species ++ [synthElectron st],
    layouts := st.layouts ++ [none],
    electron_cache := some (synthElectron st),
    next_id := st.next_id + 1,
    logs := st.logs ++
      [("no electron species for ionization available, creating electrons with name: ")
        ++ (synthElectron st).name] }

/-- A species the propagation pass __resolve_electrons must fill: it has
ionization models and no explicit donor reference. -/
def speciesNeedy (s : PicmiSpecies) : Bool :=
  s.has_ionizers && decide (s.picongpu_ionization_electrons = none)

/-- The attribute assignment of __resolve_electrons: point the donor
reference of s at the resolved electron species el. -/
def setDonorTo (el : PicmiSpecies) (s : PicmiSpecies) : PicmiSpecies :=
  { s with picongpu_ionization_electrons := some (DonorRef.mk el.id el.name) }

/-- The donor update the propagation pass applies when the resolved
electron species is el: needy species get their donor reference set to
el, all others are untouched. -/
def updDonor (el : PicmiSpecies) (s : PicmiSpecies) : PicmiSpecies :=
  if speciesNeedy s then setDonorTo el s else s

/-- Embedding of the loop of Simulation.__resolve_electrons, iterating by
index because __get_electron_species may append the synthesized electron
species to the very list being iterated (a Python for loop sees such
appends).  In the fill branch the loop variable s is the same object as
entry i of the current list, so the attribute assignment is a set at i. -/
def resolveElectronsFrom (st : SimState) (i : ℕ) : Except ElectronError SimState :=
  if hi : i < st.species.length then
    if (st.species[i]).has_ionizers = false then
      -- only handle ionized species anyways
      resolveElectronsFrom st (i + 1)
    else if (st.species[i]).picongpu_ionization_electrons ≠ none then
      -- skip if ionization electrons already set (nothing to guess)
      resolveElectronsFrom st (i + 1)
    else
      match hget : getElectronSpecies st with
      | .error err => .error err
      | .ok (el, st1) =>
        resolveElectronsFrom
          { st1 with species := st1.species.set i (setDonorTo el (st.species[i])) } (i + 1)
  else
    .ok st
termination_by 2 * (st.species.length - i) + (if st.electron_cache = none then 1 else 0)
decreasing_by
all_goals try omega
· have hshape : st1.electron_cache = some el ∧
      (st1.species.length = st.species.length ∨
        (st.electron_cache = none ∧ st1.species.length = st.species.length + 1)) := by
    unfold getElectronSpecies at hget
    split at hget
    · rename_i e0 heq
      simp only [Except.ok.injEq, Prod.mk.injEq] at hget
      obtain ⟨he0, hst⟩ := hget
      subst hst
      rw [heq, he0]
      exact ⟨rfl, Or.inl rfl⟩
    · rename_i heq
      split at hget
      · simp only [Except.ok.injEq, Prod.mk.injEq] at hget
        obtain ⟨he0, hst⟩ := hget
        subst hst
        exact ⟨by rw [he0], Or.inl rfl⟩
      · simp only [Except.ok.injEq, Prod.mk.injEq] at hget
        obtain ⟨he0, hst⟩ := hget
        subst hst
        refine ⟨by rw [he0], Or.inr ⟨heq, ?_⟩⟩
        simp
      · exact absurd hget (by simp)
  obtain ⟨hcache, hlen⟩ := hshape
  simp only [List.length_set, hcache]
  rcases hlen with hlen | ⟨hnone, hlen⟩
  · rw [hlen]
    cases st.electron_cache <;> simp <;> omega
  · rw [hlen, hnone]
    simp

/-- Embedding of Simulation.__resolve_electrons: fill the missing
picongpu_ionization_electrons of every ionizing species. -/
def resolveElectrons (st : SimState) : Except ElectronError SimState :=
  resolveElectronsFrom st 0

/-- One ionization model (a GroundStateIonization constant) of a
translated species; the runtime electron-species link is filled in by
__fill_ionization_electrons and references a translated species by
identity. -/
structure IonizationModel where
  ionization_electron_species : Option ℕ
deriving DecidableEq

/-- A PyPIConGPU (output form) species as seen by the link filler: its
object identity, its name attribute and its ionization models.
Modelled from the spec: has_constant_of_type GroundStateIonization is
nonemptiness of the model list and get_constant_by_type returns it (the
pypicongpu species class is outside the analysed file). -/
structure PypicSpecies where
  id : ℕ
  name : String
  ionization_models : List IonizationModel
deriving DecidableEq

/-- The raised failure of __fill_ionization_electrons.  referenceError is
the assertion whose message names the donor species and the translated
species and says the donor must be explicitly added with add_species.
attributeErrorNoneName models the Python AttributeError raised while
formatting that message when the donor reference is None (None has no
name attribute); the registration message is never built in that case. -/
inductive FillError where
  | referenceError (donor_name : String) (species_name : String)
  | attributeErrorNoneName
deriving DecidableEq

/-- Whether a failure of the link filler is the registration assertion
(as opposed to the None-donor attribute error). -/
def FillError.isRegistrationFailure : FillError → Bool
  | .referenceError _ _ => true
  | .attributeErrorNoneName => false

/-- Lookup in the translated-species mapping pypicongpu_by_picmi_species,
keyed by the identity of the PICMI (input form) species. -/
def lookupTranslated (m : List (PicmiSpecies × PypicSpecies)) (donor_id : ℕ) :
    Option PypicSpecies :=
  match m with
  | [] => none
  | (k, v) :: rest => if k.id = donor_id then some v else lookupTranslated rest donor_id

/-- The model-list update of __fill_ionization_electrons: point every
ionization model's runtime electron-species link at the translated donor
species. -/
def fillModelsWith (donor_pypic : PypicSpecies) (models : List IonizationModel) :
    List IonizationModel :=
  models.map (fun mo => { mo with ionization_electron_species := some donor_pypic.id })

/-- The body of the __fill_ionization_electrons loop for one
(picmi species, translated species) pair: species without ionization
models are skipped; otherwise the donor reference must be a key of the
mapping (membership is by object identity), and then every ionization
model's electron-species link is set to the translated donor species. -/
def fillOne (m : List (PicmiSpecies × PypicSpecies)) (picmi : PicmiSpecies)
    (pypic : PypicSpecies) : Except FillError PypicSpecies :=
  if pypic.ionization_models = [] then
    -- only fill ionization electrons if required (by ionizers)
    .ok pypic
  else
    match picmi.picongpu_ionization_electrons with
    | none =>
      -- the membership test on None is False and building the assertion
      -- message then reads None.name: AttributeError
      .error FillError.attributeErrorNoneName
    | some d =>
      match lookupTranslated m d.id with
      | none => .error (FillError.referenceError d.name pypic.name)
      | some donor_pypic =>
        .ok ({ pypic with
          ionization_models := fillModelsWith donor_pypic pypic.ionization_models })

/-- The iteration of __fill_ionization_electrons over the mapping items;
lookups always use the full mapping m. -/
def fillGo (m : List (PicmiSpecies × PypicSpecies)) :
    List (PicmiSpecies × PypicSpecies) → Except FillError (List (PicmiSpecies × PypicSpecies))
  | [] => .ok []
  | pr :: rest =>
    match fillOne m pr.1 pr.2 with
    | .error e => .error e
    | .ok py =>
      match fillGo m rest with
      | .error e => .error e
      | .ok rest2 => .ok ((pr.1, py) :: rest2)

/-- Embedding of Simulation.__fill_ionization_electrons.  The source
mutates the translated species objects in place; the embedding returns
the updated mapping, or the first raised failure. -/
def fillIonizationElectrons (m : List (PicmiSpecies × PypicSpecies)) :
    Except FillError (List (PicmiSpecies × PypicSpecies)) :=
  fillGo m m

/-- The translated species produced for one pair when no failure is
raised: ionization models (if any) get their electron-species link set to
the translated donor species found in the mapping. -/
def fillOneOk (m : List (PicmiSpecies × PypicSpecies)) (pr : PicmiSpecies × PypicSpecies) :
    PypicSpecies :=
  if pr.2.ionization_models = [] then pr.2
  else
    match pr.1.picongpu_ionization_electrons with
    | none => pr.2
    | some d =>
      match lookupTranslated m d.id with
      | none => pr.2
      | some donor_pypic =>
        { pr.2 with
          ionization_models := fillModelsWith donor_pypic pr.2.ionization_models }

/-- A SimpleDensity operation: the shared sampling count, the shared
normalized profile, and the translated species initialized together (the
Python set of distinct objects is modelled as a list). -/
structure SimpleDensity where
  ppc : ℕ
  profile : PypicProfile
  species : List PypicSpecies
deriving DecidableEq

/-- Insertion into the inner (profile-keyed) dictionary of
__get_operations_simple_density, preserving insertion order.  Modelled
from the spec: keys compare by structural (value) equality. -/
def updateInner (inner : List (Profile × List PicmiSpecies)) (p : Profile) (s : PicmiSpecies) :
    List (Profile × List PicmiSpecies) :=
  match inner with
  | [] => [(p, [s])]
  | (q, ss) :: rest =>
    if q = p then (q, ss ++ [s]) :: rest
    else (q, ss) :: updateInner rest p s

/-- Insertion into the outer (layout-keyed) dictionary of
__get_operations_simple_density. -/
def updateOuter (acc : List (Layout × List (Profile × List PicmiSpecies))) (l : Layout)
    (p : Profile) (s : PicmiSpecies) : List (Layout × List (Profile × List PicmiSpecies)) :=
  match acc with
  | [] => [(l, [(p, [s])])]
  | (k, inner) :: rest =>
    if k = l then (k, updateInner inner p s) :: rest
    else (k, inner) :: updateOuter rest l p s

/-- One step of the first loop of __get_operations_simple_density: a
species with no layout or no profile is not placed here; every other
species is appended to the bucket of its (layout, profile) pair. -/
def groupStep (acc : List (Layout × List (Profile × List PicmiSpecies)))
    (pr : PicmiSpecies × Option Layout) : List (Layout × List (Profile × List PicmiSpecies)) :=
  match pr.2, pr.1.initial_distribution with
  | some l, some p => updateOuter acc l p pr.1
  | _, _ => acc

/-- The nested dictionary picmi_species_by_profile_by_layout built by
__get_operations_simple_density from the aligned (species, layout)
sequence. -/
def groupPlaced (pairs : List (PicmiSpecies × Option Layout)) :
    List (Layout × List (Profile × List PicmiSpecies)) :=
  pairs.foldl groupStep []

/-- Embedding of Simulation.__get_operations_simple_density: one
SimpleDensity operation per (layout, profile) bucket of the nested
dictionary, in insertion order; tr is the translated-species mapping
built beforehand by the init manager. -/
def getOperationsSimpleDensity (species : List PicmiSpecies) (layouts : List (Option Layout))
    (tr : PicmiSpecies → PypicSpecies) : List SimpleDensity :=
  (groupPlaced (species.zip layouts)).flatMap (fun gl =>
    gl.2.map (fun gp =>
      { ppc := gl.1.n_macroparticles_per_cell,
        profile := gp.1.get_as_pypicongpu,
        species := gp.2.map tr }))

/-- First-match lookup in an insertion-ordered association list (the
value a Python dict access yields, with keys compared by value). -/
def alistGet {α β : Type} [DecidableEq α] (l : List (α × β)) (a : α) : Option β :=
  match l with
  | [] => none
  | (k, v) :: rest => if k = a then some v else alistGet rest a

/-- The bucket a nested dictionary holds for one (layout, profile) key
(empty when either key is absent). -/
def accBucket (acc : List (Layout × List (Profile × List PicmiSpecies))) (l : Layout)
    (p : Profile) : List PicmiSpecies :=
  (alistGet ((alistGet acc l).getD []) p).getD []

/-- The bucket of species collected for one (layout, profile) key. -/
def bucketOf (pairs : List (PicmiSpecies × Option Layout)) (l : Layout) (p : Profile) :
    List PicmiSpecies :=
  accBucket (groupPlaced pairs) l p

/-- The species among pairs placed with layout l and profile p, in
order. -/
def placedList (pairs : List (PicmiSpecies × Option Layout)) (l : Layout) (p : Profile) :
    List PicmiSpecies :=
  (pairs.filter (fun pr =>
    decide (pr.2 = some l) && decide (pr.1.initial_distribution = some p))).map Prod.fst

/-- Modelled from the spec: the median across the plan's species-level
sampling counts (InitManager.get_typical_particle_per_cell lives in the
pypicongpu package, outside the analysed file).  Even-length lists use
the mean of the two middle elements, matching spec scenario D where the
median of two counts 8 and 16 is 12. -/
def medianOfList (counts : List ℚ) : ℚ :=
  let sorted := counts.insertionSort (· ≤ ·)
  if h : sorted.length = 0 then 0
  else if sorted.length % 2 = 1 then
    sorted.get ⟨sorted.length / 2, by omega⟩
  else
    (sorted.get ⟨sorted.length / 2 - 1, by omega⟩
      + sorted.get ⟨sorted.length / 2, by omega⟩) / 2

/-- Embedding of the typical-ppc step of Simulation.get_as_pypicongpu:
the user override if given, otherwise the median of the plan's species
sampling counts; a resulting value below 1 aborts resolution. -/
def computeTypicalPpc (picongpu_typical_ppc : Option ℚ) (species_ppcs : List ℚ) :
    Except String ℚ :=
  let typical_ppc :=
    match picongpu_typical_ppc with
    | none => medianOfList species_ppcs
    | some v => v
  if typical_ppc < 1 then
    .error ("typical_ppc must be >= 1")
  else
    .ok typical_ppc

/-- Witness fixture: an electron-tagged species. -/
def exElectronA : PicmiSpecies :=
  { id := 0, name := "ea", particle_type := some ("electron"), mass := none, charge := none,
    initial_distribution := none, density_scale := none,
    picongpu_ionization_electrons := none, has_ionizers := false }

/-- Witness fixture: a second electron-tagged species. -/
def exElectronB : PicmiSpecies :=
  { id := 1, name := "eb", particle_type := some ("electron"), mass := none, charge := none,
    initial_distribution := none, density_scale := none,
    picongpu_ionization_electrons := none, has_ionizers := false }

/-- Witness fixture: an ionizing species without an explicit donor. -/
def exIon : PicmiSpecies :=
  { id := 2, name := "ion", particle_type := none, mass := none, charge := none,
    initial_distribution := none, density_scale := none,
    picongpu_ionization_electrons := none, has_ionizers := true }

/-- Witness fixture: two electron-like species, none of them needy. -/
def exStateAmbiguous : SimState :=
  { species := [exElectronA, exElectronB], layouts := [none, none], electron_cache := none,
    next_id := 3, logs := [] }

/-- Witness fixture: a simulation with no species at all. -/
def exStateEmpty : SimState :=
  { species := [], layouts := [], electron_cache := none, next_id := 0, logs := [] }

/-- Witness fixture: exactly one electron-like species. -/
def exStateSingle : SimState :=
  { species := [exElectronA], layouts := [none], electron_cache := none, next_id := 1,
    logs := [] }

/-- Witness fixture: one electron species and one needy ionizing
species. -/
def exStateResolve : SimState :=
  { species := [exElectronA, exIon], layouts := [none, none], electron_cache := none,
    next_id := 3, logs := [] }

/-- Witness fixture: the state after resolving the electron species of
exStateResolve. -/
def exStateResolveCached : SimState :=
  { exStateResolve with electron_cache := some exElectronA }

/-- Counterexample fixture: an ionizing PICMI species whose donor
reference was never filled. -/
def exPicmiIonNoDonor : PicmiSpecies :=
  { id := 10, name := "ion", particle_type := none, mass := none, charge := none,
    initial_distribution := none, density_scale := none,
    picongpu_ionization_electrons := none, has_ionizers := true }

/-- Counterexample fixture: the translated ionizing species with one
ionization model. -/
def exPypicIon : PypicSpecies :=
  { id := 100, name := "ion", ionization_models := [{ ionization_electron_species := none }] }

/-- Counterexample fixture: a mapping whose only ionizing species has an
unset donor reference. -/
def exMapNoneDonor : List (PicmiSpecies × PypicSpecies) :=
  [(exPicmiIonNoDonor, exPypicIon)]

/-- Witness fixture: the ionizing species with its donor reference set to
the electron species below. -/
def exPicmiIonWithDonor : PicmiSpecies :=
  { id := 10, name := "ion", particle_type := none, mass := none, charge := none,
    initial_distribution := none, density_scale := none,
    picongpu_ionization_electrons := some (DonorRef.mk 11 ("el")), has_ionizers := true }

/-- Witness fixture: the donor electron species (input form). -/
def exPicmiElec : PicmiSpecies :=
  { id := 11, name := "el", particle_type := some ("electron"), mass := none, charge := none,
    initial_distribution := none, density_scale := none,
    picongpu_ionization_electrons := none, has_ionizers := false }

/-- Witness fixture: the translated donor electron species. -/
def exPypicElec : PypicSpecies :=
  { id := 101, name := "el", ionization_models := [] }

/-- Witness fixture: a well-formed translated-species mapping. -/
def exMapGood : List (PicmiSpecies × PypicSpecies) :=
  [(exPicmiIonWithDonor, exPypicIon), (exPicmiElec, exPypicElec)]

/-- Witness fixture: a pseudo-random layout with 4 macroparticles per
cell. -/
def exLayoutA : Layout :=
  { n_macroparticles_per_cell := 4 }

/-- Witness fixture: a profile. -/
def exProfileA : Profile :=
  { descriptor := 7 }

/-- Witness fixture: first placed species. -/
def exSpGroup1 : PicmiSpecies :=
  { id := 20, name := "s1", particle_type := none, mass := none, charge := none,
    initial_distribution := some exProfileA, density_scale := none,
    picongpu_ionization_electrons := none, has_ionizers := false }

/-- Witness fixture: second placed species with the same layout and a
value-equal profile. -/
def exSpGroup2 : PicmiSpecies :=
  { id := 21, name := "s2", particle_type := none, mass := none, charge := none,
    initial_distribution := some exProfileA, density_scale := none,
    picongpu_ionization_electrons := none, has_ionizers := false }

/-- Witness fixture: the translation function used for grouping
witnesses. -/
def exTr (s : PicmiSpecies) : PypicSpecies :=
  { id := s.id, name := s.name, ionization_models := [] }

/-- Positivity of the CFL factor on non-degenerate grids (in Python a zero
spacing would already have raised ZeroDivisionError inside the sqrt
argument, so nonzero spacings delimit the domain the source runs on). -/
theorem yeeS_pos (g : Cartesian3DGrid) (hx : g.delta 0 ≠ 0) (hy : g.delta 1 ≠ 0)
    (hz : g.delta 2 ≠ 0) : 0 < yeeS g := by
  have hx2 : 0 < 1 / g.delta 0 ^ 2 := by positivity
  have hy2 : 0 < 1 / g.delta 1 ^ 2 := by positivity
  have hz2 : 0 < 1 / g.delta 2 ^ 2 := by positivity
  have hsum : 0 < 1 / g.delta 0 ^ 2 + 1 / g.delta 1 ^ 2 + 1 / g.delta 2 ^ 2 := by linarith
  have hc : (0 : ℝ) < constants.c := by norm_num [constants.c]
  exact mul_pos hc (Real.sqrt_pos.mpr hsum)

/-- C1: for a Yee solver on a Cartesian 3-D grid with nonzero spacings and
both time_step_size and stability_parameter set, the reconciler fails with
the error naming both conflicting values exactly when
stability_parameter differs from time_step_size * S (exact equality, no
tolerance), and returns both fields unchanged when they are consistent. -/
theorem yee_reconciler_both_set (g : Cartesian3DGrid) (dt cfl : ℝ)
    (hx : g.delta 0 ≠ 0) (hy : g.delta 1 ≠ 0) (hz : g.delta 2 ≠ 0) :
    (yee_compute_cfl_or_delta_t (some dt) (some cfl) g
        = .error (.mismatch dt (cfl / yeeS g)) ↔ cfl ≠ dt * yeeS g)
    ∧ (cfl = dt * yeeS g →
        yee_compute_cfl_or_delta_t (some dt) (some cfl) g = .ok (some dt, some cfl)) := by
  have hS : yeeS g ≠ 0 := ne_of_gt (yeeS_pos g hx hy hz)
  have hdiv : cfl / yeeS g = dt ↔ cfl = dt * yeeS g := div_eq_iff hS
  have hunfold : yee_compute_cfl_or_delta_t (some dt) (some cfl) g
      = if cfl / yeeS g ≠ dt then Except.error (YeeError.mismatch dt (cfl / yeeS g))
        else Except.ok (some dt, some cfl) := rfl
  by_cases h : cfl / yeeS g = dt
  · rw [hunfold, if_neg (not_not_intro h)]
    refine ⟨⟨fun hcontr => absurd hcontr (by simp), fun hne => absurd (hdiv.mp h) hne⟩, ?_⟩
    intro _
    rfl
  · rw [hunfold, if_pos h]
    refine ⟨⟨fun _ hc => h (hdiv.mpr hc), fun _ => rfl⟩, ?_⟩
    intro hc
    exact absurd (hdiv.mpr hc) h

/-- Witness for C1 on a concrete grid (unit cube, one cell per axis) with
dt = 1 and cfl = 2. -/
theorem yee_reconciler_both_set_witness :
    ((Cartesian3DGrid.mk (fun _ => 0) (fun _ => 1) (fun _ => 1)).delta 0 ≠ 0
      ∧ (Cartesian3DGrid.mk (fun _ => 0) (fun _ => 1) (fun _ => 1)).delta 1 ≠ 0
      ∧ (Cartesian3DGrid.mk (fun _ => 0) (fun _ => 1) (fun _ => 1)).delta 2 ≠ 0)
    ∧ ((yee_compute_cfl_or_delta_t (some 1) (some 2)
          (Cartesian3DGrid.mk (fun _ => 0) (fun _ => 1) (fun _ => 1))
        = .error (.mismatch 1 (2 / yeeS (Cartesian3DGrid.mk (fun _ => 0) (fun _ => 1) (fun _ => 1))))
        ↔ (2 : ℝ) ≠ 1 * yeeS (Cartesian3DGrid.mk (fun _ => 0) (fun _ => 1) (fun _ => 1)))
      ∧ ((2 : ℝ) = 1 * yeeS (Cartesian3DGrid.mk (fun _ => 0) (fun _ => 1) (fun _ => 1)) →
        yee_compute_cfl_or_delta_t (some 1) (some 2)
            (Cartesian3DGrid.mk (fun _ => 0) (fun _ => 1) (fun _ => 1))
          = .ok (some 1, some 2))) := by
  have hx : (Cartesian3DGrid.mk (fun _ => 0) (fun _ => 1) (fun _ => 1)).delta 0 ≠ 0 := by
    norm_num [Cartesian3DGrid.delta]
  have hy : (Cartesian3DGrid.mk (fun _ => 0) (fun _ => 1) (fun _ => 1)).delta 1 ≠ 0 := by
    norm_num [Cartesian3DGrid.delta]
  have hz : (Cartesian3DGrid.mk (fun _ => 0) (fun _ => 1) (fun _ => 1)).delta 2 ≠ 0 := by
    norm_num [Cartesian3DGrid.delta]
  exact ⟨⟨hx, hy, hz⟩,
    yee_reconciler_both_set (Cartesian3DGrid.mk (fun _ => 0) (fun _ => 1) (fun _ => 1)) 1 2 hx hy hz⟩

/-- C2: for a Yee solver on a Cartesian 3-D grid, if only time_step_size
is set the reconciler sets the stability parameter to exactly
time_step_size * S; if only the stability parameter is set it sets
time_step_size to exactly stability_parameter / S; if neither is set both
stay unset and no error is raised. -/
theorem yee_reconciler_derive_or_nop (g : Cartesian3DGrid) (dt cfl : ℝ) :
    yee_compute_cfl_or_delta_t (some dt) none g = .ok (some dt, some (dt * yeeS g))
    ∧ yee_compute_cfl_or_delta_t none (some cfl) g = .ok (some (cfl / yeeS g), some cfl)
    ∧ yee_compute_cfl_or_delta_t none none g = .ok (none, none) :=
  ⟨rfl, rfl, rfl⟩

/-- The escape loop always leaves the name set: its result does not occur
among the existing species names. -/
theorem escapeName_not_mem (all_species_names : List String) (base : String) :
    escapeName all_species_names base ∉ all_species_names := by
  by_cases h : base ∈ all_species_names
  · rw [escapeName, dif_pos h]
    exact escapeName_not_mem all_species_names (base ++ ("_"))
  · rw [escapeName, dif_neg h]
    exact h
termination_by (all_species_names.filter (fun s => base.length ≤ s.length)).length
decreasing_by
  have h1 : ("_" : String).length = 1 := rfl
  have hlen : (base ++ ("_")).length = base.length + 1 := by
    rw [String.length_append, h1]
  have key : ∀ (l : List String) (b : String), b ∈ l →
      (l.filter (fun s => decide (b.length + 1 ≤ s.length))).length
        < (l.filter (fun s => decide (b.length ≤ s.length))).length := by
    intro l
    induction l with
    | nil => intro b hb; cases hb
    | cons x xs ih =>
      intro b hb
      have hmono : (xs.filter (fun s => decide (b.length + 1 ≤ s.length))).length
          ≤ (xs.filter (fun s => decide (b.length ≤ s.length))).length :=
        List.Sublist.length_le (List.monotone_filter_right xs (fun a ha => by
          simp only [decide_eq_true_eq] at ha ⊢
          omega))
      rcases List.mem_cons.mp hb with hbx | hbxs
      · subst hbx
        rw [List.filter_cons, List.filter_cons]
        rw [if_neg (show ¬(decide (b.length + 1 ≤ b.length) = true) by simp)]
        rw [if_pos (show decide (b.length ≤ b.length) = true by simp)]
        simp only [List.length_cons]
        exact Nat.lt_succ_of_le hmono
      · have hstrict := ih b hbxs
        rw [List.filter_cons, List.filter_cons]
        by_cases hq : b.length ≤ x.length
        · by_cases hp : b.length + 1 ≤ x.length
          · rw [if_pos (show decide (b.length + 1 ≤ x.length) = true by simpa using hp)]
            rw [if_pos (show decide (b.length ≤ x.length) = true by simpa using hq)]
            simp only [List.length_cons]
            omega
          · rw [if_neg (show ¬(decide (b.length + 1 ≤ x.length) = true) by simpa using hp)]
            rw [if_pos (show decide (b.length ≤ x.length) = true by simpa using hq)]
            simp only [List.length_cons]
            omega
        · have hp : ¬b.length + 1 ≤ x.length := by omega
          rw [if_neg (show ¬(decide (b.length + 1 ≤ x.length) = true) by simpa using hp)]
          rw [if_neg (show ¬(decide (b.length ≤ x.length) = true) by simpa using hq)]
          exact hstrict
  simpa only [hlen] using key all_species_names base h

/-- C3: with the cache unset and at least two electron-like species among
the simulation's species, __get_electron_species raises the ambiguity
error listing the names of all electron-like candidates, regardless of
how many non-electron species are present; nothing is synthesized (the
raise happens before any mutation, so no state is returned). -/
theorem electron_resolution_ambiguous (st : SimState)
    (hc : st.electron_cache = none)
    (h2 : 2 ≤ (st.species.filter isElectron).length) :
    getElectronSpecies st
      = .error (.ambiguous ((st.species.filter isElectron).map PicmiSpecies.name)) := by
  unfold getElectronSpecies
  rw [hc]
  rcases hfil : st.species.filter isElectron with _ | ⟨e1, rest1⟩
  · rw [hfil] at h2
    simp at h2
  · rcases rest1 with _ | ⟨e2, rest⟩
    · rw [hfil] at h2
      simp at h2
    · rfl

/-- Witness for C3: two electron-tagged species. -/
theorem electron_resolution_ambiguous_witness :
    (exStateAmbiguous.electron_cache = none
      ∧ 2 ≤ (exStateAmbiguous.species.filter isElectron).length)
    ∧ getElectronSpecies exStateAmbiguous
        = .error (.ambiguous ((exStateAmbiguous.species.filter isElectron).map
            PicmiSpecies.name)) :=
  ⟨⟨rfl, by decide⟩, electron_resolution_ambiguous exStateAmbiguous rfl (by decide)⟩

/-- C4: with the cache unset and no electron-like species,
__get_electron_species synthesizes exactly one new electron species,
appends it to the species/layout sequences with a none layout, names it
by the escape loop starting from base name e (so the name is fresh and a
function of the prior name list), logs an informational notice, caches
and returns it. -/
theorem electron_resolution_synthesize (st : SimState)
    (hc : st.electron_cache = none)
    (h0 : st.species.filter isElectron = []) :
    ∃ e st2, getElectronSpecies st = .ok (e, st2)
      ∧ e.name = escapeName (st.species.map PicmiSpecies.name) ("e")
      ∧ e.name ∉ st.species.map PicmiSpecies.name
      ∧ e.particle_type = some ("electron")
      ∧ st2.species = st.species ++ [e]
      ∧ st2.layouts = st.layouts ++ [none]
      ∧ st2.electron_cache = some e
      ∧ st2.logs = st.logs ++
          [("no electron species for ionization available, creating electrons with name: ")
            ++ e.name] := by
  refine ⟨synthElectron st, synthState st, ?_, rfl, ?_, rfl, rfl, rfl, rfl, rfl⟩
  · unfold getElectronSpecies
    rw [hc, h0]
    rfl
  · exact escapeName_not_mem _ _

/-- Witness for C4: an empty simulation synthesizes the electron
species. -/
theorem electron_resolution_synthesize_witness :
    (exStateEmpty.electron_cache = none ∧ exStateEmpty.species.filter isElectron = [])
    ∧ ∃ e st2, getElectronSpecies exStateEmpty = .ok (e, st2)
      ∧ e.name = escapeName (exStateEmpty.species.map PicmiSpecies.name) ("e")
      ∧ e.name ∉ exStateEmpty.species.map PicmiSpecies.name
      ∧ e.particle_type = some ("electron")
      ∧ st2.species = exStateEmpty.species ++ [e]
      ∧ st2.layouts = exStateEmpty.layouts ++ [none]
      ∧ st2.electron_cache = some e
      ∧ st2.logs = exStateEmpty.logs ++
          [("no electron species for ionization available, creating electrons with name: ")
            ++ e.name] :=
  ⟨⟨rfl, rfl⟩, electron_resolution_synthesize exStateEmpty rfl rfl⟩

/-- C5: electron resolution is idempotent within one resolution context:
a successful call stores the chosen species in the cache, and a second
call returns the identical species and state (through the cache branch,
without reclassification or a second synthesis). -/
theorem electron_resolution_idempotent (st : SimState) (e : PicmiSpecies) (st2 : SimState)
    (h : getElectronSpecies st = .ok (e, st2)) :
    st2.electron_cache = some e ∧ getElectronSpecies st2 = .ok (e, st2) := by
  have hcache : st2.electron_cache = some e := by
    unfold getElectronSpecies at h
    split at h
    · rename_i e0 heq
      simp only [Except.ok.injEq, Prod.mk.injEq] at h
      obtain ⟨he0, hst⟩ := h
      subst hst
      subst he0
      exact heq
    · split at h
      · simp only [Except.ok.injEq, Prod.mk.injEq] at h
        obtain ⟨he0, hst⟩ := h
        subst hst
        subst he0
        rfl
      · simp only [Except.ok.injEq, Prod.mk.injEq] at h
        obtain ⟨he0, hst⟩ := h
        subst hst
        subst he0
        rfl
      · exact absurd h (by simp)
  refine ⟨hcache, ?_⟩
  unfold getElectronSpecies
  rw [hcache]

/-- Witness for C5: one electron species, resolved then resolved again. -/
theorem electron_resolution_idempotent_witness :
    getElectronSpecies exStateSingle
        = .ok (exElectronA, { exStateSingle with electron_cache := some exElectronA })
    ∧ (({ exStateSingle with electron_cache := some exElectronA }).electron_cache
          = some exElectronA
      ∧ getElectronSpecies ({ exStateSingle with electron_cache := some exElectronA })
          = .ok (exElectronA, { exStateSingle with electron_cache := some exElectronA })) :=
  ⟨rfl, electron_resolution_idempotent exStateSingle exElectronA
    ({ exStateSingle with electron_cache := some exElectronA }) rfl⟩

/-- A successful __get_electron_species call fills the cache with the
returned species. -/
theorem getElectronSpecies_ok_cache (st : SimState) (e : PicmiSpecies) (st2 : SimState)
    (h : getElectronSpecies st = .ok (e, st2)) : st2.electron_cache = some e := by
  unfold getElectronSpecies at h
  split at h
  · rename_i e0 heq
    simp only [Except.ok.injEq, Prod.mk.injEq] at h
    obtain ⟨he0, hst⟩ := h
    subst hst
    subst he0
    exact heq
  · split at h
    · simp only [Except.ok.injEq, Prod.mk.injEq] at h
      obtain ⟨he0, hst⟩ := h
      subst hst
      subst he0
      rfl
    · simp only [Except.ok.injEq, Prod.mk.injEq] at h
      obtain ⟨he0, hst⟩ := h
      subst hst
      subst he0
      rfl
    · exact absurd h (by simp)

/-- A successful __get_electron_species call leaves the species sequence
unchanged or appends exactly the returned (synthesized) species. -/
theorem getElectronSpecies_ok_species (st : SimState) (e : PicmiSpecies) (st2 : SimState)
    (h : getElectronSpecies st = .ok (e, st2)) :
    st2.species = st.species ∨ st2.species = st.species ++ [e] := by
  unfold getElectronSpecies at h
  split at h
  · simp only [Except.ok.injEq, Prod.mk.injEq] at h
    obtain ⟨he0, hst⟩ := h
    subst hst
    exact Or.inl rfl
  · split at h
    · simp only [Except.ok.injEq, Prod.mk.injEq] at h
      obtain ⟨he0, hst⟩ := h
      subst hst
      exact Or.inl rfl
    · simp only [Except.ok.injEq, Prod.mk.injEq] at h
      obtain ⟨he0, hst⟩ := h
      subst hst
      subst he0
      exact Or.inr rfl
    · exact absurd h (by simp)

/-- With the cache filled, __get_electron_species returns the cached
species and does not touch the state. -/
theorem getElectronSpecies_cached (st : SimState) (e : PicmiSpecies)
    (hc : st.electron_cache = some e) : getElectronSpecies st = .ok (e, st) := by
  unfold getElectronSpecies
  rw [hc]

/-- Loop exit of __resolve_electrons: past the end of the species list
the state is returned unchanged. -/
theorem resolveFrom_stop (st : SimState) (i : ℕ) (hge : st.species.length ≤ i) :
    resolveElectronsFrom st i = .ok st := by
  unfold resolveElectronsFrom
  rw [dif_neg (by omega)]

/-- __resolve_electrons skips a species that needs no donor. -/
theorem resolveFrom_skip (st : SimState) (i : ℕ) (hi : i < st.species.length)
    (hskip : speciesNeedy (st.species[i]) = false) :
    resolveElectronsFrom st i = resolveElectronsFrom st (i + 1) := by
  conv_lhs => unfold resolveElectronsFrom
  rw [dif_pos hi]
  unfold speciesNeedy at hskip
  by_cases hion : (st.species[i]).has_ionizers = false
  · rw [if_pos hion]
  · have htrue : (st.species[i]).has_ionizers = true := by
      revert hion
      cases (st.species[i]).has_ionizers <;> simp
    rw [htrue] at hskip
    have hdon : (st.species[i]).picongpu_ionization_electrons ≠ none := by
      simpa using hskip
    rw [if_neg hion, if_pos hdon]

/-- __resolve_electrons fills a needy species with the result of
__get_electron_species. -/
theorem resolveFrom_fill (st : SimState) (i : ℕ) (hi : i < st.species.length)
    (hneedy : speciesNeedy (st.species[i]) = true)
    (el : PicmiSpecies) (st1 : SimState)
    (hget : getElectronSpecies st = .ok (el, st1)) :
    resolveElectronsFrom st i = resolveElectronsFrom
      ({ st1 with species := st1.species.set i (setDonorTo el (st.species[i])) }) (i + 1) := by
  unfold speciesNeedy at hneedy
  rw [Bool.and_eq_true] at hneedy
  obtain ⟨h1, h2⟩ := hneedy
  have hion : ¬(st.species[i]).has_ionizers = false := by
    simp [h1]
  have hdon : (st.species[i]).picongpu_ionization_electrons = none := by
    simpa using h2
  conv_lhs => unfold resolveElectronsFrom
  rw [dif_pos hi, if_neg hion, if_neg (not_not_intro hdon)]
  split
  · rename_i err heq
    rw [hget] at heq
    simp at heq
  · rename_i el2 st12 heq
    rw [hget] at heq
    simp only [Except.ok.injEq, Prod.mk.injEq] at heq
    obtain ⟨hel, hst⟩ := heq
    subst hel
    subst hst
    rfl

/-- Moving the boundary of the take/map-drop decomposition across a
position the donor update leaves unchanged. -/
theorem takeDropMapStep (A : List PicmiSpecies) (el : PicmiSpecies) (i : ℕ)
    (hi : i < A.length) (hsame : updDonor el (A[i]) = A[i]) :
    A.take (i + 1) ++ (A.drop (i + 1)).map (updDonor el)
      = A.take i ++ (A.drop i).map (updDonor el) := by
  have h1 : A.drop i = A[i] :: A.drop (i + 1) := List.drop_eq_getElem_cons hi
  have h2 : A.take (i + 1) = A.take i ++ [A[i]] := by
    rw [List.take_succ, List.getElem?_eq_getElem hi]
    rfl
  rw [h1, h2, List.map_cons, hsame, List.append_assoc, List.singleton_append]

/-- Moving the boundary of the take/map-drop decomposition across a
position that was just overwritten with its donor update. -/
theorem takeDropMapSet (A : List PicmiSpecies) (el x : PicmiSpecies) (i : ℕ)
    (hi : i < A.length) (hx : updDonor el (A[i]) = x) :
    (A.set i x).take (i + 1) ++ ((A.set i x).drop (i + 1)).map (updDonor el)
      = A.take i ++ (A.drop i).map (updDonor el) := by
  have hset : A.set i x = (A.take i ++ [x]) ++ A.drop (i + 1) := by
    rw [List.set_eq_take_cons_drop x hi]
    simp
  have hlen : (A.take i ++ [x]).length = i + 1 := by
    rw [List.length_append, List.length_take]
    simp
    omega
  have htake : (A.set i x).take (i + 1) = A.take i ++ [x] := by
    rw [hset, List.take_append_of_le_length (by omega)]
    exact List.take_of_length_le (by omega)
  have hdrop : (A.set i x).drop (i + 1) = A.drop (i + 1) := by
    rw [hset, show i + 1 = (A.take i ++ [x]).length from hlen.symm, List.drop_left]
  have h1 : A.drop i = A[i] :: A.drop (i + 1) := List.drop_eq_getElem_cons hi
  rw [htake, hdrop, h1, List.map_cons, hx, List.append_assoc, List.singleton_append]

/-- The loop of __resolve_electrons on a state whose electron cache is
already filled: every remaining needy species gets the cached donor, and
nothing else changes. -/
theorem resolveFrom_cached (el : PicmiSpecies) : ∀ (n : ℕ) (st : SimState) (i : ℕ),
    st.species.length - i = n → st.electron_cache = some el →
    resolveElectronsFrom st i
      = .ok ({ st with species := st.species.take i ++ (st.species.drop i).map (updDonor el) }) := by
  intro n
  induction n with
  | zero =>
    intro st i hn hc
    have hge : st.species.length ≤ i := by omega
    rw [resolveFrom_stop st i hge, List.drop_eq_nil_of_le hge, List.take_of_length_le hge]
    simp
  | succ n ih =>
    intro st i hn hc
    have hi : i < st.species.length := by omega
    by_cases hndy : speciesNeedy (st.species[i]) = true
    · have hgetc := getElectronSpecies_cached st el hc
      rw [resolveFrom_fill st i hi hndy el st hgetc]
      have hlen2 : ({ st with species := st.species.set i (setDonorTo el (st.species[i])) }
          : SimState).species.length - (i + 1) = n := by
        show (st.species.set i (setDonorTo el (st.species[i]))).length - (i + 1) = n
        rw [List.length_set]
        omega
      rw [ih _ (i + 1) hlen2 hc]
      refine congrArg Except.ok (SimState.ext ?_ rfl rfl rfl rfl)
      show (st.species.set i (setDonorTo el (st.species[i]))).take (i + 1)
          ++ ((st.species.set i (setDonorTo el (st.species[i]))).drop (i + 1)).map (updDonor el)
        = st.species.take i ++ (st.species.drop i).map (updDonor el)
      refine takeDropMapSet st.species el _ i hi ?_
      unfold updDonor
      rw [if_pos hndy]
    · rw [resolveFrom_skip st i hi (by simpa using hndy)]
      rw [ih st (i + 1) (by omega) hc]
      refine congrArg Except.ok (SimState.ext ?_ rfl rfl rfl rfl)
      refine takeDropMapStep st.species el i hi ?_
      unfold updDonor
      rw [if_neg hndy]

/-- The loop of __resolve_electrons while the cache may still be empty:
as soon as some needy species lies ahead, the getter result st1 (its
side effects included) materializes and every needy species from the
current position on is filled with the resolved electron species. -/
theorem resolveFrom_pre (st : SimState) (el : PicmiSpecies) (st1 : SimState)
    (hget : getElectronSpecies st = .ok (el, st1)) :
    ∀ (n : ℕ) (i : ℕ), st.species.length - i = n →
    (∃ j, i ≤ j ∧ ∃ hj : j < st.species.length, speciesNeedy (st.species[j]) = true) →
    resolveElectronsFrom st i
      = .ok ({ st1 with species := st1.species.take i ++ (st1.species.drop i).map (updDonor el) }) := by
  intro n
  induction n with
  | zero =>
    intro i hn hex
    obtain ⟨j, hij, hj, _⟩ := hex
    omega
  | succ n ih =>
    intro i hn hex
    obtain ⟨j, hij, hj, hjndy⟩ := hex
    have hi : i < st.species.length := by omega
    have hsp := getElectronSpecies_ok_species st el st1 hget
    have hi1 : i < st1.species.length := by
      rcases hsp with hsp | hsp
      · rw [hsp]
        omega
      · rw [hsp]
        simp only [List.length_append, List.length_singleton]
        omega
    have hsame : st1.species[i] = st.species[i] := by
      rcases hsp with hsp | hsp
      · simp only [hsp]
      · simp only [hsp]
        exact List.getElem_append_left hi
    by_cases hndy : speciesNeedy (st.species[i]) = true
    · rw [resolveFrom_fill st i hi hndy el st1 hget]
      have hc1 : st1.electron_cache = some el := getElectronSpecies_ok_cache st el st1 hget
      have hphase := resolveFrom_cached el
        (({ st1 with species := st1.species.set i (setDonorTo el (st.species[i])) }
          : SimState).species.length - (i + 1))
        ({ st1 with species := st1.species.set i (setDonorTo el (st.species[i])) }) (i + 1)
        rfl hc1
      rw [hphase]
      refine congrArg Except.ok (SimState.ext ?_ rfl rfl rfl rfl)
      show (st1.species.set i (setDonorTo el (st.species[i]))).take (i + 1)
          ++ ((st1.species.set i (setDonorTo el (st.species[i]))).drop (i + 1)).map (updDonor el)
        = st1.species.take i ++ (st1.species.drop i).map (updDonor el)
      refine takeDropMapSet st1.species el _ i hi1 ?_
      rw [hsame]
      unfold updDonor
      rw [if_pos hndy]
    · have hj_ne : j ≠ i := by
        intro hji
        subst hji
        exact hndy hjndy
      rw [resolveFrom_skip st i hi (by simpa using hndy)]
      rw [ih (i + 1) (by omega) ⟨j, by omega, hj, hjndy⟩]
      refine congrArg Except.ok (SimState.ext ?_ rfl rfl rfl rfl)
      refine takeDropMapStep st1.species el i hi1 ?_
      rw [hsame]
      unfold updDonor
      rw [if_neg hndy]

/-- C10: electron resolution is lazy.  If no species has ionization
models with an unset donor reference, __resolve_electrons succeeds and
returns the state unchanged: the getter is never consulted, nothing is
classified or synthesized, no ambiguity error can arise, and the species
and layout sequences stay exactly as they were, regardless of how many
electron-like species are present. -/
theorem resolve_electrons_lazy_noop (st : SimState)
    (hquiet : ∀ s ∈ st.species, speciesNeedy s = false) :
    resolveElectrons st = .ok st := by
  have aux : ∀ (n : ℕ) (i : ℕ), st.species.length - i = n →
      resolveElectronsFrom st i = .ok st := by
    intro n
    induction n with
    | zero =>
      intro i hn
      exact resolveFrom_stop st i (by omega)
    | succ n ih =>
      intro i hn
      have hi : i < st.species.length := by omega
      rw [resolveFrom_skip st i hi (hquiet _ (List.getElem_mem hi))]
      exact ih (i + 1) (by omega)
  exact aux st.species.length 0 (by omega)

/-- Witness for C10: two electron-like species, neither needy; resolution
changes nothing and raises nothing. -/
theorem resolve_electrons_lazy_noop_witness :
    (∀ s ∈ exStateAmbiguous.species, speciesNeedy s = false)
    ∧ resolveElectrons exStateAmbiguous = .ok exStateAmbiguous :=
  ⟨by decide, resolve_electrons_lazy_noop exStateAmbiguous (by decide)⟩

/-- C6: the propagation pass sets the donor reference of every species
with ionization models and an unset donor to the resolved electron
species, and changes nothing else: species with an explicit donor keep
it, species without ionization models are untouched, and the rest of the
state is exactly the getter result st1. -/
theorem resolve_electrons_propagation (st : SimState) (el : PicmiSpecies) (st1 : SimState)
    (hget : getElectronSpecies st = .ok (el, st1))
    (hex : ∃ s ∈ st.species, speciesNeedy s = true) :
    resolveElectrons st = .ok ({ st1 with species := st1.species.map (updDonor el) }) := by
  obtain ⟨s, hs, hsndy⟩ := hex
  obtain ⟨j, hj, hjs⟩ := List.getElem_of_mem hs
  have hpre := resolveFrom_pre st el st1 hget st.species.length 0 (by omega)
    ⟨j, by omega, hj, by rw [hjs]; exact hsndy⟩
  unfold resolveElectrons
  rw [hpre]
  refine congrArg Except.ok (SimState.ext ?_ rfl rfl rfl rfl)
  simp

/-- Witness for C6: one electron species, one needy ionizing species. -/
theorem resolve_electrons_propagation_witness :
    (getElectronSpecies exStateResolve = .ok (exElectronA, exStateResolveCached)
      ∧ ∃ s ∈ exStateResolve.species, speciesNeedy s = true)
    ∧ resolveElectrons exStateResolve
        = .ok ({ exStateResolveCached with
            species := exStateResolveCached.species.map (updDonor exElectronA) }) :=
  ⟨⟨rfl, by decide⟩,
    resolve_electrons_propagation exStateResolve exElectronA exStateResolveCached rfl (by decide)⟩

/-- C9: the typical particles-per-cell scalar is exactly the user
override when one is given and otherwise the median of the plan's
species-level sampling counts; resolution returns it iff it is at least
1 and aborts with the ValueError otherwise, so every successfully
resolved simulation has typical_ppc at least 1. -/
theorem typical_ppc_spec (override : Option ℚ) (counts : List ℚ) (v : ℚ) :
    (computeTypicalPpc override counts = .ok v
      ↔ (v = (match override with | none => medianOfList counts | some o => o) ∧ 1 ≤ v))
    ∧ (computeTypicalPpc override counts = .error ("typical_ppc must be >= 1")
      ↔ (match override with | none => medianOfList counts | some o => o) < 1) := by
  have hunfold : computeTypicalPpc override counts
      = if (match override with | none => medianOfList counts | some o => o) < 1
        then .error ("typical_ppc must be >= 1")
        else .ok (match override with | none => medianOfList counts | some o => o) := rfl
  rw [hunfold]
  by_cases hlt : (match override with | none => medianOfList counts | some o => o) < 1
  · rw [if_pos hlt]
    constructor
    · constructor
      · intro hcontr
        exact absurd hcontr (by simp)
      · rintro ⟨rfl, hge⟩
        exact absurd hge (not_le.mpr hlt)
    · simp [hlt]
  · rw [if_neg hlt]
    constructor
    · constructor
      · intro hok
        simp only [Except.ok.injEq] at hok
        subst hok
        exact ⟨rfl, not_lt.mp hlt⟩
      · rintro ⟨rfl, _⟩
        rfl
    · constructor
      · intro hcontr
        exact absurd hcontr (by simp)
      · intro h1
        exact absurd h1 hlt

/-- fillGo succeeds and applies the per-pair update when every ionizing
pair has a set and registered donor reference. -/
theorem fillGo_ok (m : List (PicmiSpecies × PypicSpecies)) :
    ∀ (rest : List (PicmiSpecies × PypicSpecies)),
    (∀ pr ∈ rest, pr.2.ionization_models ≠ [] →
      ∃ d donor, pr.1.picongpu_ionization_electrons = some d
        ∧ lookupTranslated m d.id = some donor) →
    fillGo m rest = .ok (rest.map (fun pr => (pr.1, fillOneOk m pr))) := by
  intro rest
  induction rest with
  | nil =>
    intro _
    rfl
  | cons pr rest ih =>
    intro hall
    have hpr := hall pr (List.mem_cons_self pr rest)
    have hone : fillOne m pr.1 pr.2 = .ok (fillOneOk m pr) := by
      unfold fillOne fillOneOk
      by_cases hm : pr.2.ionization_models = []
      · rw [if_pos hm, if_pos hm]
      · obtain ⟨d, donor, hd, hdon⟩ := hpr hm
        rw [if_neg hm, if_neg hm, hd]
        simp only [hdon]
    have hrest := ih (fun q hq => hall q (List.mem_cons_of_mem pr hq))
    simp only [fillGo]
    rw [hone, hrest]
    rfl

/-- fillGo raises the registration assertion when all ionizing pairs have
set donors but some donor is not a key of the mapping. -/
theorem fillGo_err (m : List (PicmiSpecies × PypicSpecies)) :
    ∀ (rest : List (PicmiSpecies × PypicSpecies)),
    (∀ pr ∈ rest, pr.2.ionization_models ≠ [] →
      pr.1.picongpu_ionization_electrons ≠ none) →
    (∃ pr ∈ rest, pr.2.ionization_models ≠ [] ∧
      ∃ d, pr.1.picongpu_ionization_electrons = some d ∧ lookupTranslated m d.id = none) →
    ∃ dn sn, fillGo m rest = .error (FillError.referenceError dn sn) := by
  intro rest
  induction rest with
  | nil =>
    intro _ hbad
    obtain ⟨pr, hmem, _⟩ := hbad
    simp at hmem
  | cons pr rest ih =>
    intro hset hbad
    by_cases hm : pr.2.ionization_models = []
    · have hone : fillOne m pr.1 pr.2 = .ok pr.2 := by
        unfold fillOne
        rw [if_pos hm]
      have hbad2 : ∃ q ∈ rest, q.2.ionization_models ≠ [] ∧
          ∃ d, q.1.picongpu_ionization_electrons = some d
            ∧ lookupTranslated m d.id = none := by
        obtain ⟨q, hmem, hne, hrest0⟩ := hbad
        rcases List.mem_cons.mp hmem with rfl | hmem2
        · exact absurd hm hne
        · exact ⟨q, hmem2, hne, hrest0⟩
      obtain ⟨dn, sn, hrec⟩ := ih (fun q hq => hset q (List.mem_cons_of_mem pr hq)) hbad2
      refine ⟨dn, sn, ?_⟩
      simp only [fillGo]
      rw [hone, hrec]
    · have hd0 := hset pr (List.mem_cons_self pr rest) hm
      rcases hdeq : pr.1.picongpu_ionization_electrons with _ | d
      · exact absurd hdeq hd0
      · rcases hleq : lookupTranslated m d.id with _ | donor
        · refine ⟨d.name, pr.2.name, ?_⟩
          have hone : fillOne m pr.1 pr.2
              = .error (FillError.referenceError d.name pr.2.name) := by
            unfold fillOne
            rw [if_neg hm, hdeq]
            simp only [hleq]
          simp only [fillGo]
          rw [hone]
        · have hone : fillOne m pr.1 pr.2 = .ok ({ pr.2 with
              ionization_models := fillModelsWith donor pr.2.ionization_models }) := by
            unfold fillOne
            rw [if_neg hm, hdeq]
            simp only [hleq]
          have hbad2 : ∃ q ∈ rest, q.2.ionization_models ≠ [] ∧
              ∃ d2, q.1.picongpu_ionization_electrons = some d2
                ∧ lookupTranslated m d2.id = none := by
            obtain ⟨q, hmem, hne, d2, hd2, hl2⟩ := hbad
            rcases List.mem_cons.mp hmem with rfl | hmem2
            · rw [hdeq] at hd2
              injection hd2 with hd2d
              subst hd2d
              rw [hleq] at hl2
              simp at hl2
            · exact ⟨q, hmem2, hne, d2, hd2, hl2⟩
          obtain ⟨dn, sn, hrec⟩ := ih (fun q hq => hset q (List.mem_cons_of_mem pr hq)) hbad2
          refine ⟨dn, sn, ?_⟩
          simp only [fillGo]
          rw [hone, hrec]

/-- The per-pair update of the link filler does not change the identity
or the name of the translated species. -/
theorem fillOneOk_id_name (m : List (PicmiSpecies × PypicSpecies))
    (pr : PicmiSpecies × PypicSpecies) :
    (fillOneOk m pr).id = pr.2.id ∧ (fillOneOk m pr).name = pr.2.name := by
  unfold fillOneOk
  by_cases hm0 : pr.2.ionization_models = []
  · rw [if_pos hm0]
    exact ⟨rfl, rfl⟩
  · rw [if_neg hm0]
    rcases hd : pr.1.picongpu_ionization_electrons with _ | d
    · exact ⟨rfl, rfl⟩
    · rcases hl : lookupTranslated m d.id with _ | donor
      · simp [hl]
      · simp [hl, fillModelsWith]

/-- C7 counterexample: on a mapping whose single translated species
carries an ionization model but whose input-form donor reference is
unset (hence not a key of the mapping), the link filler does not fail
with the registration ReferenceError the claim promises: it crashes with
the AttributeError raised while formatting the assertion message. -/
theorem fill_ionization_none_donor_counterexample :
    fillIonizationElectrons exMapNoneDonor = .error FillError.attributeErrorNoneName
    ∧ FillError.attributeErrorNoneName.isRegistrationFailure = false :=
  ⟨rfl, rfl⟩

/-- C7 amended: provided every translated species carrying an ionization
model has a set (non-None) donor reference, the link filler fails with
the registration ReferenceError whenever some such donor is not a key of
the translated-species mapping; otherwise it succeeds and sets every
ionization model's electron-species link to the translated (output-form)
donor species found in the mapping, leaving names, identities and
model-free species unchanged. -/
theorem fill_ionization_spec_amended (m : List (PicmiSpecies × PypicSpecies))
    (hset : ∀ pr ∈ m, pr.2.ionization_models ≠ [] →
      pr.1.picongpu_ionization_electrons ≠ none) :
    ((∀ pr ∈ m, pr.2.ionization_models ≠ [] →
        ∀ d, pr.1.picongpu_ionization_electrons = some d → lookupTranslated m d.id ≠ none) →
      ∃ m2, fillIonizationElectrons m = .ok m2 ∧ m2.length = m.length ∧
        ∀ j (hj2 : j < m2.length) (hj : j < m.length),
          (m2[j]).1 = (m[j]).1
          ∧ ((m2[j]).2.id = (m[j]).2.id ∧ (m2[j]).2.name = (m[j]).2.name)
          ∧ ((m[j]).2.ionization_models = [] → (m2[j]).2 = (m[j]).2)
          ∧ (∀ d donor, (m[j]).1.picongpu_ionization_electrons = some d →
              lookupTranslated m d.id = some donor →
              (m2[j]).2.ionization_models
                = fillModelsWith donor ((m[j]).2.ionization_models)))
    ∧ ((∃ pr ∈ m, pr.2.ionization_models ≠ [] ∧
          ∃ d, pr.1.picongpu_ionization_electrons = some d
            ∧ lookupTranslated m d.id = none) →
      ∃ dn sn, fillIonizationElectrons m = .error (FillError.referenceError dn sn)) := by
  constructor
  · intro hreg
    have hall : ∀ pr ∈ m, pr.2.ionization_models ≠ [] →
        ∃ d donor, pr.1.picongpu_ionization_electrons = some d
          ∧ lookupTranslated m d.id = some donor := by
      intro pr hpr hm
      have hne := hset pr hpr hm
      rcases hd : pr.1.picongpu_ionization_electrons with _ | d
      · exact absurd hd hne
      · have hr := hreg pr hpr hm d hd
        rcases hl : lookupTranslated m d.id with _ | donor
        · exact absurd hl hr
        · exact ⟨d, donor, rfl, hl⟩
    have hok : fillIonizationElectrons m
        = .ok (m.map (fun pr => (pr.1, fillOneOk m pr))) := fillGo_ok m m hall
    refine ⟨m.map (fun pr => (pr.1, fillOneOk m pr)), hok, by simp, ?_⟩
    intro j hj2 hj
    refine ⟨by rw [List.getElem_map], ?_, ?_, ?_⟩
    · have hin := fillOneOk_id_name m (m[j])
      rw [List.getElem_map]
      exact hin
    · intro hm0
      rw [List.getElem_map]
      show fillOneOk m (m[j]) = (m[j]).2
      unfold fillOneOk
      rw [if_pos hm0]
    · intro d donor hd hdon
      rw [List.getElem_map]
      show (fillOneOk m (m[j])).ionization_models
        = fillModelsWith donor ((m[j]).2.ionization_models)
      unfold fillOneOk
      by_cases hm0 : (m[j]).2.ionization_models = []
      · rw [if_pos hm0, hm0]
        rfl
      · rw [if_neg hm0, hd]
        simp only [hdon]
  · intro hbad
    exact fillGo_err m m hset hbad

/-- Witness for the amended C7 on a two-pair mapping with a registered
donor. -/
theorem fill_ionization_spec_amended_witness :
    (∀ pr ∈ exMapGood, pr.2.ionization_models ≠ [] →
      pr.1.picongpu_ionization_electrons ≠ none)
    ∧ (((∀ pr ∈ exMapGood, pr.2.ionization_models ≠ [] →
          ∀ d, pr.1.picongpu_ionization_electrons = some d →
            lookupTranslated exMapGood d.id ≠ none) →
        ∃ m2, fillIonizationElectrons exMapGood = .ok m2 ∧ m2.length = exMapGood.length ∧
          ∀ j (hj2 : j < m2.length) (hj : j < exMapGood.length),
            (m2[j]).1 = (exMapGood[j]).1
            ∧ ((m2[j]).2.id = (exMapGood[j]).2.id ∧ (m2[j]).2.name = (exMapGood[j]).2.name)
            ∧ ((exMapGood[j]).2.ionization_models = [] → (m2[j]).2 = (exMapGood[j]).2)
            ∧ (∀ d donor, (exMapGood[j]).1.picongpu_ionization_electrons = some d →
                lookupTranslated exMapGood d.id = some donor →
                (m2[j]).2.ionization_models
                  = fillModelsWith donor ((exMapGood[j]).2.ionization_models)))
      ∧ ((∃ pr ∈ exMapGood, pr.2.ionization_models ≠ [] ∧
            ∃ d, pr.1.picongpu_ionization_electrons = some d
              ∧ lookupTranslated exMapGood d.id = none) →
        ∃ dn sn, fillIonizationElectrons exMapGood
          = .error (FillError.referenceError dn sn))) :=
  ⟨by decide, fill_ionization_spec_amended exMapGood (by decide)⟩

/-- Unfolding equation: lookup in an empty association list. -/
theorem alistGet_nilEq {α β : Type} [DecidableEq α] (a : α) :
    alistGet ([] : List (α × β)) a = none := rfl

/-- Unfolding equation: lookup in a nonempty association list. -/
theorem alistGet_cons {α β : Type} [DecidableEq α] (k : α) (v : β) (rest : List (α × β))
    (a : α) : alistGet ((k, v) :: rest) a = if k = a then some v else alistGet rest a := rfl

/-- Unfolding equation: insertion into an empty inner dictionary. -/
theorem updateInner_nil (p : Profile) (s : PicmiSpecies) :
    updateInner [] p s = [(p, [s])] := rfl

/-- Unfolding equation: insertion into a nonempty inner dictionary. -/
theorem updateInner_cons (q : Profile) (ss : List PicmiSpecies)
    (rest : List (Profile × List PicmiSpecies)) (p : Profile) (s : PicmiSpecies) :
    updateInner ((q, ss) :: rest) p s
      = if q = p then (q, ss ++ [s]) :: rest else (q, ss) :: updateInner rest p s := rfl

/-- Unfolding equation: insertion into an empty outer dictionary. -/
theorem updateOuter_nil (l : Layout) (p : Profile) (s : PicmiSpecies) :
    updateOuter [] l p s = [(l, [(p, [s])])] := rfl

/-- Unfolding equation: insertion into a nonempty outer dictionary. -/
theorem updateOuter_cons (k : Layout) (inner : List (Profile × List PicmiSpecies))
    (rest : List (Layout × List (Profile × List PicmiSpecies))) (l : Layout) (p : Profile)
    (s : PicmiSpecies) :
    updateOuter ((k, inner) :: rest) l p s
      = if k = l then (k, updateInner inner p s) :: rest
        else (k, inner) :: updateOuter rest l p s := rfl

/-- Inserting into the inner dictionary appends to the bucket of the
given profile and leaves all other buckets alone. -/
theorem alistGet_updateInner (p : Profile) (s : PicmiSpecies) :
    ∀ (inner : List (Profile × List PicmiSpecies)) (q : Profile),
    alistGet (updateInner inner p s) q
      = if q = p then some ((alistGet inner p).getD [] ++ [s]) else alistGet inner q := by
  intro inner
  induction inner with
  | nil =>
    intro q
    rw [updateInner_nil, alistGet_cons, alistGet_nilEq]
    by_cases h : q = p
    · subst h
      rw [if_pos rfl, if_pos rfl]
      simp [alistGet_nilEq]
    · rw [if_neg (fun hh => h (Eq.symm hh)), if_neg h]
  | cons e rest ih =>
    intro q
    rcases e with ⟨q0, ss⟩
    rw [updateInner_cons]
    by_cases hq0p : q0 = p
    · subst hq0p
      rw [if_pos rfl, alistGet_cons, alistGet_cons, alistGet_cons]
      rw [if_pos (rfl : q0 = q0)]
      by_cases hq : q = q0
      · subst hq
        rw [if_pos rfl, if_pos rfl]
        simp
      · rw [if_neg (fun hh => hq (Eq.symm hh)), if_neg hq]
        rw [if_neg (fun hh => hq (Eq.symm hh))]
    · rw [if_neg hq0p, alistGet_cons, alistGet_cons, alistGet_cons, ih q]
      rw [if_neg hq0p]
      by_cases hq0q : q0 = q
      · subst hq0q
        rw [if_pos rfl, if_neg hq0p, if_pos rfl]
      · rw [if_neg hq0q, if_neg hq0q]

/-- Inserting into the outer dictionary rewrites the inner dictionary of
the given layout and leaves all other layouts alone. -/
theorem alistGet_updateOuter (l : Layout) (p : Profile) (s : PicmiSpecies) :
    ∀ (acc : List (Layout × List (Profile × List PicmiSpecies))) (k : Layout),
    alistGet (updateOuter acc l p s) k
      = if k = l then some (updateInner ((alistGet acc l).getD []) p s)
        else alistGet acc k := by
  intro acc
  induction acc with
  | nil =>
    intro k
    rw [updateOuter_nil, alistGet_cons, alistGet_nilEq]
    by_cases h : k = l
    · subst h
      rw [if_pos rfl, if_pos rfl]
      simp [alistGet_nilEq, updateInner_nil]
    · rw [if_neg (fun hh => h (Eq.symm hh)), if_neg h]
  | cons e rest ih =>
    intro k
    rcases e with ⟨k0, inner⟩
    rw [updateOuter_cons]
    by_cases hk0l : k0 = l
    · subst hk0l
      rw [if_pos rfl, alistGet_cons, alistGet_cons, alistGet_cons]
      rw [if_pos (rfl : k0 = k0)]
      by_cases hk : k = k0
      · subst hk
        rw [if_pos rfl, if_pos rfl]
        simp
      · rw [if_neg (fun hh => hk (Eq.symm hh)), if_neg hk]
        rw [if_neg (fun hh => hk (Eq.symm hh))]
    · rw [if_neg hk0l, alistGet_cons, alistGet_cons, alistGet_cons, ih k]
      rw [if_neg hk0l]
      by_cases hk0k : k0 = k
      · subst hk0k
        rw [if_pos rfl, if_neg hk0l, if_pos rfl]
      · rw [if_neg hk0k, if_neg hk0k]

/-- One grouping step appends a placed species to the bucket of its
(layout, profile) key and leaves every other bucket unchanged. -/
theorem accBucket_groupStep (acc : List (Layout × List (Profile × List PicmiSpecies)))
    (pr : PicmiSpecies × Option Layout) (l : Layout) (p : Profile) :
    accBucket (groupStep acc pr) l p
      = accBucket acc l p
        ++ (if pr.2 = some l ∧ pr.1.initial_distribution = some p then [pr.1] else []) := by
  rcases pr with ⟨s, lo⟩
  rcases lo with _ | l0
  · rw [show groupStep acc (s, none) = acc from rfl]
    rw [if_neg (by rintro ⟨hc, _⟩; cases hc)]
    simp
  · rcases hp : s.initial_distribution with _ | p0
    · have hstep : groupStep acc (s, some l0) = acc := by
        unfold groupStep
        rw [hp]
      rw [hstep]
      rw [if_neg (by rintro ⟨_, hc⟩; cases hc)]
      simp
    · have hstep : groupStep acc (s, some l0) = updateOuter acc l0 p0 s := by
        unfold groupStep
        rw [hp]
      rw [hstep]
      show (alistGet ((alistGet (updateOuter acc l0 p0 s) l).getD []) p).getD [] = _
      rw [alistGet_updateOuter]
      by_cases hll : l = l0
      · subst hll
        rw [if_pos rfl, Option.getD_some, alistGet_updateInner]
        by_cases hpp : p = p0
        · subst hpp
          rw [if_pos rfl]
          rw [if_pos (show (s, some l).2 = some l ∧ some p = some p from ⟨rfl, rfl⟩)]
          simp [accBucket]
        · rw [if_neg hpp]
          rw [if_neg (by rintro ⟨_, hc⟩; exact hpp (Eq.symm (Option.some.inj hc)))]
          simp [accBucket]
      · rw [if_neg hll]
        rw [if_neg (by rintro ⟨hc, _⟩; exact hll (Eq.symm (Option.some.inj hc)))]
        simp [accBucket]

/-- The bucket of the dictionary built by the grouping fold is the bucket
of the starting dictionary followed by the matching placed species, in
order. -/
theorem accBucket_foldl (l : Layout) (p : Profile) :
    ∀ (pairs : List (PicmiSpecies × Option Layout))
      (acc : List (Layout × List (Profile × List PicmiSpecies))),
    accBucket (pairs.foldl groupStep acc) l p
      = accBucket acc l p ++ placedList pairs l p := by
  intro pairs
  induction pairs with
  | nil =>
    intro acc
    simp [placedList]
  | cons pr rest ih =>
    intro acc
    rw [List.foldl_cons, ih, accBucket_groupStep]
    unfold placedList
    rw [List.filter_cons]
    by_cases hcond : (pr.2 = some l ∧ pr.1.initial_distribution = some p)
    · rw [if_pos hcond]
      rw [if_pos (show (decide (pr.2 = some l)
          && decide (pr.1.initial_distribution = some p)) = true
        by simp [hcond.1, hcond.2])]
      rw [List.map_cons]
      simp [List.append_assoc]
    · rw [if_neg hcond]
      rw [if_neg (show ¬((decide (pr.2 = some l)
          && decide (pr.1.initial_distribution = some p)) = true)
        by simpa using hcond)]
      simp

/-- The bucket the nested dictionary ends up holding for a key is exactly
the ordered list of species placed with that key. -/
theorem bucketOf_eq_placedList (pairs : List (PicmiSpecies × Option Layout)) (l : Layout)
    (p : Profile) : bucketOf pairs l p = placedList pairs l p := by
  show accBucket (pairs.foldl groupStep []) l p = _
  rw [accBucket_foldl]
  simp [accBucket, alistGet_nilEq]

/-- A successful association-list lookup comes from a member entry. -/
theorem mem_of_alistGet_eq_some {α β : Type} [DecidableEq α] :
    ∀ (L : List (α × β)) (k : α) (v : β), alistGet L k = some v → (k, v) ∈ L := by
  intro L
  induction L with
  | nil =>
    intro k v h
    rw [alistGet_nilEq] at h
    cases h
  | cons e rest ih =>
    intro k v h
    rcases e with ⟨k0, v0⟩
    rw [alistGet_cons] at h
    by_cases hk : k0 = k
    · rw [if_pos hk] at h
      injection h with hv
      subst hv
      subst hk
      exact List.mem_cons_self _ _
    · rw [if_neg hk] at h
      exact List.mem_cons_of_mem _ (ih k v h)

/-- A nonempty bucket is held by actual entries of the nested
dictionary. -/
theorem bucket_entry (pairs : List (PicmiSpecies × Option Layout)) (l : Layout) (p : Profile)
    (hne : bucketOf pairs l p ≠ []) :
    ∃ inner, alistGet (groupPlaced pairs) l = some inner
      ∧ alistGet inner p = some (bucketOf pairs l p) := by
  have hb : bucketOf pairs l p
      = (alistGet ((alistGet (groupPlaced pairs) l).getD []) p).getD [] := rfl
  rcases h1 : alistGet (groupPlaced pairs) l with _ | inner
  · exfalso
    apply hne
    rw [hb, h1]
    simp [alistGet_nilEq]
  · refine ⟨inner, rfl, ?_⟩
    rcases h2 : alistGet inner p with _ | ss
    · exfalso
      apply hne
      rw [hb, h1]
      simp only [Option.getD_some]
      rw [h2]
      rfl
    · have hbs : bucketOf pairs l p = ss := by
        rw [hb, h1]
        simp only [Option.getD_some]
        rw [h2]
        rfl
      rw [hbs]

/-- Membership in an updated inner dictionary: an entry is an old entry
or the updated bucket of the inserted profile. -/
theorem updateInner_mem (p : Profile) (s : PicmiSpecies) :
    ∀ (inner : List (Profile × List PicmiSpecies)) (q : Profile × List PicmiSpecies),
    q ∈ updateInner inner p s →
    q ∈ inner ∨ (q.1 = p ∧ ∃ ss0, q.2 = ss0 ++ [s] ∧ (ss0 = [] ∨ (q.1, ss0) ∈ inner)) := by
  intro inner
  induction inner with
  | nil =>
    intro q hq
    rw [updateInner_nil] at hq
    rcases List.mem_cons.mp hq with rfl | hq2
    · exact Or.inr ⟨rfl, [], rfl, Or.inl rfl⟩
    · simp at hq2
  | cons e rest ih =>
    intro q hq
    rcases e with ⟨q0, ss⟩
    rw [updateInner_cons] at hq
    by_cases hq0p : q0 = p
    · rw [if_pos hq0p] at hq
      rcases List.mem_cons.mp hq with rfl | hq2
      · exact Or.inr ⟨hq0p, ss, rfl, Or.inr (List.mem_cons_self _ _)⟩
      · exact Or.inl (List.mem_cons_of_mem _ hq2)
    · rw [if_neg hq0p] at hq
      rcases List.mem_cons.mp hq with rfl | hq2
      · exact Or.inl (List.mem_cons_self _ _)
      · rcases ih q hq2 with h | ⟨h1, ss0, h2, h3⟩
        · exact Or.inl (List.mem_cons_of_mem _ h)
        · refine Or.inr ⟨h1, ss0, h2, ?_⟩
          rcases h3 with h3 | h3
          · exact Or.inl h3
          · exact Or.inr (List.mem_cons_of_mem _ h3)

/-- Membership in an updated outer dictionary: an entry is an old entry
or the updated inner dictionary of the inserted layout. -/
theorem updateOuter_mem (l : Layout) (p : Profile) (s : PicmiSpecies) :
    ∀ (acc : List (Layout × List (Profile × List PicmiSpecies)))
      (e : Layout × List (Profile × List PicmiSpecies)),
    e ∈ updateOuter acc l p s →
    e ∈ acc ∨ (e.1 = l ∧ ∃ inner0, e.2 = updateInner inner0 p s
      ∧ (inner0 = [] ∨ (e.1, inner0) ∈ acc)) := by
  intro acc
  induction acc with
  | nil =>
    intro e he
    rw [updateOuter_nil] at he
    rcases List.mem_cons.mp he with rfl | he2
    · exact Or.inr ⟨rfl, [], rfl, Or.inl rfl⟩
    · simp at he2
  | cons e0 rest ih =>
    intro e he
    rcases e0 with ⟨k0, inner⟩
    rw [updateOuter_cons] at he
    by_cases hk0l : k0 = l
    · rw [if_pos hk0l] at he
      rcases List.mem_cons.mp he with rfl | he2
      · exact Or.inr ⟨hk0l, inner, rfl, Or.inr (List.mem_cons_self _ _)⟩
      · exact Or.inl (List.mem_cons_of_mem _ he2)
    · rw [if_neg hk0l] at he
      rcases List.mem_cons.mp he with rfl | he2
      · exact Or.inl (List.mem_cons_self _ _)
      · rcases ih e he2 with h | ⟨h1, inner0, h2, h3⟩
        · exact Or.inl (List.mem_cons_of_mem _ h)
        · refine Or.inr ⟨h1, inner0, h2, ?_⟩
          rcases h3 with h3 | h3
          · exact Or.inl h3
          · exact Or.inr (List.mem_cons_of_mem _ h3)

/-- Soundness of the grouping fold: every bucket of the resulting nested
dictionary is nonempty and contains only species satisfying the placement
predicate of its keys. -/
theorem group_sound (P : PicmiSpecies → Layout → Profile → Prop) :
    ∀ (pairs : List (PicmiSpecies × Option Layout))
      (acc : List (Layout × List (Profile × List PicmiSpecies))),
    (∀ e ∈ acc, ∀ q ∈ e.2, q.2 ≠ [] ∧ ∀ s ∈ q.2, P s e.1 q.1) →
    (∀ pr ∈ pairs, ∀ l p, pr.2 = some l → pr.1.initial_distribution = some p → P pr.1 l p) →
    ∀ e ∈ pairs.foldl groupStep acc, ∀ q ∈ e.2, q.2 ≠ [] ∧ ∀ s ∈ q.2, P s e.1 q.1 := by
  intro pairs
  induction pairs with
  | nil =>
    intro acc hacc _ e he q hq
    exact hacc e he q hq
  | cons pr rest ih =>
    intro acc hacc hpairs
    rw [List.foldl_cons]
    apply ih
    · rcases pr with ⟨s0, lo⟩
      rcases lo with _ | l0
      · exact hacc
      · rcases hp : s0.initial_distribution with _ | p0
        · have hstep : groupStep acc (s0, some l0) = acc := by
            unfold groupStep
            rw [hp]
          rw [hstep]
          exact hacc
        · have hstep : groupStep acc (s0, some l0) = updateOuter acc l0 p0 s0 := by
            unfold groupStep
            rw [hp]
          rw [hstep]
          intro e he q hq
          have hP0 : P s0 l0 p0 := hpairs (s0, some l0) (List.mem_cons_self _ _) l0 p0 rfl hp
          rcases updateOuter_mem l0 p0 s0 acc e he with he2 | ⟨he1, inner0, he2, he3⟩
          · exact hacc e he2 q hq
          · rw [he2] at hq
            rcases updateInner_mem p0 s0 inner0 q hq with hq2 | ⟨hq1, ss0, hq2, hq3⟩
            · rcases he3 with rfl | he3
              · simp at hq2
              · exact hacc (e.1, inner0) he3 q hq2
            · constructor
              · rw [hq2]
                simp
              · intro s hs
                rw [hq2] at hs
                rcases List.mem_append.mp hs with hs | hs
                · rcases hq3 with rfl | hq3
                  · simp at hs
                  · rcases he3 with rfl | he3
                    · simp at hq3
                    · exact (hacc (e.1, inner0) he3 (q.1, ss0) hq3).2 s hs
                · rw [List.mem_singleton] at hs
                  subst hs
                  rw [he1, hq1]
                  exact hP0
    · intro q hq
      exact hpairs q (List.mem_cons_of_mem _ hq)

/-- In an association list with pairwise distinct keys, a key determines
its value. -/
theorem pair_unique {α β : Type} : ∀ (L : List (α × β)),
    (L.map Prod.fst).Nodup → ∀ (a : α) (b c : β), (a, b) ∈ L → (a, c) ∈ L → b = c := by
  intro L
  induction L with
  | nil =>
    intro _ a b c hb
    simp at hb
  | cons e rest ih =>
    intro hnd a b c hb hc
    rw [List.map_cons, List.nodup_cons] at hnd
    obtain ⟨hx, hrest⟩ := hnd
    rcases List.mem_cons.mp hb with hb1 | hb2
    · rcases List.mem_cons.mp hc with hc1 | hc2
      · rw [← hb1] at hc1
        injection hc1 with _ hbc
        exact hbc.symm
      · exfalso
        rw [← hb1] at hx
        exact hx (List.mem_map.mpr ⟨(a, c), hc2, rfl⟩)
    · rcases List.mem_cons.mp hc with hc1 | hc2
      · exfalso
        rw [← hc1] at hx
        exact hx (List.mem_map.mpr ⟨(a, b), hb2, rfl⟩)
      · exact ih hrest a b c hb2 hc2

/-- C8: SimpleDensity generation partitions the placed species (layout
and profile both present) by value equality of the (layout, profile)
pair: two species with the same key always land in one common operation,
two species with different keys never share an operation, and every
emitted operation has a nonempty species set that is homogeneous in
(layout, profile) and carries that layout's sampling count and that
profile's normalized form.  The hypotheses model the Python object model:
the species list holds distinct objects and distinct species translate
to distinct objects. -/
theorem simple_density_grouping (species : List PicmiSpecies) (layouts : List (Option Layout))
    (tr : PicmiSpecies → PypicSpecies)
    (hlen : species.length = layouts.length)
    (hnd : species.Nodup)
    (hinj : ∀ s1 ∈ species, ∀ s2 ∈ species, tr s1 = tr s2 → s1 = s2) :
    (∀ s1 s2 l p, (s1, some l) ∈ species.zip layouts → s1.initial_distribution = some p →
      (s2, some l) ∈ species.zip layouts → s2.initial_distribution = some p →
      ∃ op ∈ getOperationsSimpleDensity species layouts tr,
        tr s1 ∈ op.species ∧ tr s2 ∈ op.species)
    ∧ (∀ s1 s2 l1 p1 l2 p2,
        (s1, some l1) ∈ species.zip layouts → s1.initial_distribution = some p1 →
        (s2, some l2) ∈ species.zip layouts → s2.initial_distribution = some p2 →
        (l1, p1) ≠ (l2, p2) →
        ∀ op ∈ getOperationsSimpleDensity species layouts tr,
          ¬(tr s1 ∈ op.species ∧ tr s2 ∈ op.species))
    ∧ (∀ op ∈ getOperationsSimpleDensity species layouts tr,
        op.species ≠ []
        ∧ ∃ l p, op.ppc = l.n_macroparticles_per_cell ∧ op.profile = p.get_as_pypicongpu
          ∧ ∀ py ∈ op.species, ∃ s, (s, some l) ∈ species.zip layouts
              ∧ s.initial_distribution = some p ∧ py = tr s) := by
  have hops : ∀ op, op ∈ getOperationsSimpleDensity species layouts tr ↔
      ∃ gl ∈ groupPlaced (species.zip layouts), ∃ gp ∈ gl.2,
        op = { ppc := gl.1.n_macroparticles_per_cell, profile := gp.1.get_as_pypicongpu,
               species := gp.2.map tr } := by
    intro op
    unfold getOperationsSimpleDensity
    rw [List.mem_flatMap]
    constructor
    · rintro ⟨gl, hgl, hmap⟩
      rw [List.mem_map] at hmap
      obtain ⟨gp, hgp, hop⟩ := hmap
      exact ⟨gl, hgl, gp, hgp, hop.symm⟩
    · rintro ⟨gl, hgl, gp, hgp, hop⟩
      exact ⟨gl, hgl, List.mem_map.mpr ⟨gp, hgp, hop.symm⟩⟩
  have hmemPlaced : ∀ s l p, (s, some l) ∈ species.zip layouts →
      s.initial_distribution = some p → s ∈ placedList (species.zip layouts) l p := by
    intro s l p hmem hp
    unfold placedList
    refine List.mem_map.mpr ⟨(s, some l), ?_, rfl⟩
    rw [List.mem_filter]
    exact ⟨hmem, by simp [hp]⟩
  have hsound : ∀ e ∈ groupPlaced (species.zip layouts), ∀ q ∈ e.2,
      q.2 ≠ [] ∧ ∀ s ∈ q.2, (s, some e.1) ∈ species.zip layouts
        ∧ s.initial_distribution = some q.1 := by
    apply group_sound
      (fun s l p => (s, some l) ∈ species.zip layouts ∧ s.initial_distribution = some p)
      (species.zip layouts) []
    · intro e he
      simp at he
    · intro pr hpr l p h2 hp
      refine ⟨?_, hp⟩
      rw [← h2]
      simpa using hpr
  have hbucketOp : ∀ l p, bucketOf (species.zip layouts) l p ≠ [] →
      ∃ op ∈ getOperationsSimpleDensity species layouts tr,
        op.species = (bucketOf (species.zip layouts) l p).map tr ∧
        op.ppc = l.n_macroparticles_per_cell ∧ op.profile = p.get_as_pypicongpu := by
    intro l p hne
    obtain ⟨inner, h1, h2⟩ := bucket_entry _ l p hne
    refine ⟨SimpleDensity.mk l.n_macroparticles_per_cell p.get_as_pypicongpu
      ((bucketOf (species.zip layouts) l p).map tr), ?_, rfl, rfl, rfl⟩
    rw [hops]
    exact ⟨(l, inner), mem_of_alistGet_eq_some _ _ _ h1,
      (p, bucketOf (species.zip layouts) l p), mem_of_alistGet_eq_some _ _ _ h2, rfl⟩
  refine ⟨?_, ?_, ?_⟩
  · intro s1 s2 l p h1m h1p h2m h2p
    have hs1 : s1 ∈ bucketOf (species.zip layouts) l p := by
      rw [bucketOf_eq_placedList]
      exact hmemPlaced s1 l p h1m h1p
    have hs2 : s2 ∈ bucketOf (species.zip layouts) l p := by
      rw [bucketOf_eq_placedList]
      exact hmemPlaced s2 l p h2m h2p
    have hne : bucketOf (species.zip layouts) l p ≠ [] := by
      intro hnil
      rw [hnil] at hs1
      simp at hs1
    obtain ⟨op, hop, hsp, _, _⟩ := hbucketOp l p hne
    refine ⟨op, hop, ?_, ?_⟩
    · rw [hsp]
      exact List.mem_map.mpr ⟨s1, hs1, rfl⟩
    · rw [hsp]
      exact List.mem_map.mpr ⟨s2, hs2, rfl⟩
  · intro s1 s2 l1 p1 l2 p2 h1m h1p h2m h2p hkey op hop hcontr
    obtain ⟨htr1, htr2⟩ := hcontr
    rw [hops] at hop
    obtain ⟨gl, hgl, gp, hgp, hopEq⟩ := hop
    subst hopEq
    obtain ⟨sA, hsA, htrA⟩ := List.mem_map.mp htr1
    obtain ⟨sB, hsB, htrB⟩ := List.mem_map.mp htr2
    have hq := hsound gl hgl gp hgp
    have hAfacts := hq.2 sA hsA
    have hBfacts := hq.2 sB hsB
    have hAeq : sA = s1 :=
      hinj sA (List.of_mem_zip hAfacts.1).1 s1 (List.of_mem_zip h1m).1 htrA
    have hBeq : sB = s2 :=
      hinj sB (List.of_mem_zip hBfacts.1).1 s2 (List.of_mem_zip h2m).1 htrB
    have hndfst : ((species.zip layouts).map Prod.fst).Nodup := by
      rw [List.map_fst_zip species layouts (le_of_eq hlen)]
      exact hnd
    have hgl1 : gl.1 = l1 := by
      have h1A : (s1, some gl.1) ∈ species.zip layouts := hAeq ▸ hAfacts.1
      exact Option.some.inj (pair_unique _ hndfst s1 _ _ h1A h1m)
    have hgl2 : gl.1 = l2 := by
      have h2B : (s2, some gl.1) ∈ species.zip layouts := hBeq ▸ hBfacts.1
      exact Option.some.inj (pair_unique _ hndfst s2 _ _ h2B h2m)
    have hp1 : gp.1 = p1 := by
      have hA2 : s1.initial_distribution = some gp.1 := hAeq ▸ hAfacts.2
      exact Option.some.inj (hA2.symm.trans h1p)
    have hp2 : gp.1 = p2 := by
      have hB2 : s2.initial_distribution = some gp.1 := hBeq ▸ hBfacts.2
      exact Option.some.inj (hB2.symm.trans h2p)
    apply hkey
    rw [← hgl1, ← hp1, hgl2, hp2]
  · intro op hop
    rw [hops] at hop
    obtain ⟨gl, hgl, gp, hgp, hopEq⟩ := hop
    subst hopEq
    have hq := hsound gl hgl gp hgp
    constructor
    · intro hnil
      exact hq.1 (List.map_eq_nil_iff.mp hnil)
    · refine ⟨gl.1, gp.1, rfl, rfl, ?_⟩
      intro py hpy
      obtain ⟨s, hs, htr⟩ := List.mem_map.mp hpy
      exact ⟨s, (hq.2 s hs).1, (hq.2 s hs).2, htr.symm⟩

/-- Witness for C8: two distinct species sharing one layout and a
value-equal profile. -/
theorem simple_density_grouping_witness :
    (([exSpGroup1, exSpGroup2] : List PicmiSpecies).length
        = ([some exLayoutA, some exLayoutA] : List (Option Layout)).length
      ∧ ([exSpGroup1, exSpGroup2] : List PicmiSpecies).Nodup
      ∧ ∀ s1 ∈ ([exSpGroup1, exSpGroup2] : List PicmiSpecies),
          ∀ s2 ∈ ([exSpGroup1, exSpGroup2] : List PicmiSpecies),
          exTr s1 = exTr s2 → s1 = s2)
    ∧ ((∀ s1 s2 l p,
        (s1, some l) ∈ ([exSpGroup1, exSpGroup2] : List PicmiSpecies).zip
          ([some exLayoutA, some exLayoutA] : List (Option Layout)) →
        s1.initial_distribution = some p →
        (s2, some l) ∈ ([exSpGroup1, exSpGroup2] : List PicmiSpecies).zip
          ([some exLayoutA, some exLayoutA] : List (Option Layout)) →
        s2.initial_distribution = some p →
        ∃ op ∈ getOperationsSimpleDensity [exSpGroup1, exSpGroup2]
            [some exLayoutA, some exLayoutA] exTr,
          exTr s1 ∈ op.species ∧ exTr s2 ∈ op.species)
      ∧ (∀ s1 s2 l1 p1 l2 p2,
          (s1, some l1) ∈ ([exSpGroup1, exSpGroup2] : List PicmiSpecies).zip
            ([some exLayoutA, some exLayoutA] : List (Option Layout)) →
          s1.initial_distribution = some p1 →
          (s2, some l2) ∈ ([exSpGroup1, exSpGroup2] : List PicmiSpecies).zip
            ([some exLayoutA, some exLayoutA] : List (Option Layout)) →
          s2.initial_distribution = some p2 →
          (l1, p1) ≠ (l2, p2) →
          ∀ op ∈ getOperationsSimpleDensity [exSpGroup1, exSpGroup2]
              [some exLayoutA, some exLayoutA] exTr,
            ¬(exTr s1 ∈ op.species ∧ exTr s2 ∈ op.species))
      ∧ (∀ op ∈ getOperationsSimpleDensity [exSpGroup1, exSpGroup2]
            [some exLayoutA, some exLayoutA] exTr,
          op.species ≠ []
          ∧ ∃ l p, op.ppc = l.n_macroparticles_per_cell ∧ op.profile = p.get_as_pypicongpu
            ∧ ∀ py ∈ op.species, ∃ s,
                (s, some l) ∈ ([exSpGroup1, exSpGroup2] : List PicmiSpecies).zip
                  ([some exLayoutA, some exLayoutA] : List (Option Layout))
                ∧ s.initial_distribution = some p ∧ py = exTr s)) :=
  ⟨⟨rfl, by decide, by decide⟩,
    simple_density_grouping [exSpGroup1, exSpGroup2] [some exLayoutA, some exLayoutA] exTr
      rfl (by decide) (by decide)⟩

end PicongpuPicmi
